import Mathlib

/- Verification development for the herb-go deprecated cache repository.

   Embedded code:
   - the cachegroup driver (src/cache/misc.go, package cachegroup): the
     inline-expiration entry framing, setBytesCaches, SetBytesValue,
     UpdateBytesValue, GetBytesValue, Expire;
   - the Node wrapper key derivation (src/cache/misc.go, package cache);
   - the marshaler registry (src/cache/marshaler.go);
   - the cache engine (type cache.Cache) byte-level operations and the
     Load protocol, whose implementation is not under src; these are
     modelled from the spec, as marked on each definition.

   Conventions: Go byte slices are lists of Nat (each element a byte
   value), Go time is modelled at second granularity (the entry header
   stores Unix seconds; a time.Duration is an Int number of seconds,
   negative meaning the Go negative duration), and a Go error value is
   an Option CacheErr or an Except CacheErr result. Sub caches (tiers)
   are seen through the storage contract: a key-to-bytes store plus a
   programmable write reply. -/

/-- Error vocabulary of the cache package (cache.ErrNotFound,
    cache.ErrNotCacheable, cache.ErrEntryTooLarge, cache.ErrKeyUnavailable,
    cache.ErrFeatureNotSupported). `panicked` models a Go runtime panic
    (index out of range on an empty SubCaches list). `other` carries any
    backend error outside the shared vocabulary. -/
inductive CacheErr where
  | notFound
  | notCacheable
  | entryTooLarge
  | keyUnavailable
  | featureNotSupported
  | panicked
  | other (code : Nat)
  deriving DecidableEq, Repr

/-- Go byte slices, one Nat per byte. -/
abbrev Bytes := List Nat

/-- Association-list lookup, modelling a Go map read. -/
def assocFind (key : String) : List (String × α) → Option α
  | [] => none
  | (k, v) :: rest => if k = key then some v else assocFind key rest

/-- Association-list insert-or-replace, modelling a Go map write. -/
def assocSet (key : String) (v : α) : List (String × α) → List (String × α)
  | [] => [(key, v)]
  | (k, w) :: rest =>
    if k = key then (key, v) :: rest else (k, w) :: assocSet key v rest

/-- Association-list removal, modelling a Go map delete. -/
def assocDel (key : String) : List (String × α) → List (String × α)
  | [] => []
  | (k, w) :: rest => if k = key then rest else (k, w) :: assocDel key rest

/-- binary.BigEndian.PutUint64: the eight bytes of n, most significant
    first (each byte conversion written as the Go byte cast). -/
def putUint64BE (n : Nat) : Bytes :=
  [n / 2 ^ 56 % 256, n / 2 ^ 48 % 256, n / 2 ^ 40 % 256, n / 2 ^ 32 % 256,
   n / 2 ^ 24 % 256, n / 2 ^ 16 % 256, n / 2 ^ 8 % 256, n % 256]

/-- binary.BigEndian.Uint64 over b[0:8]; callers guard the length, any
    shorter list yields 0 here. -/
def getUint64BE : Bytes → Nat
  | b0 :: b1 :: b2 :: b3 :: b4 :: b5 :: b6 :: b7 :: _ =>
    b0 * 2 ^ 56 + b1 * 2 ^ 48 + b2 * 2 ^ 40 + b3 * 2 ^ 32 +
    b4 * 2 ^ 24 + b5 * 2 ^ 16 + b6 * 2 ^ 8 + b7
  | _ => 0

/-- The Go cast uint64(i) of an int64 value. -/
def uint64OfInt (i : Int) : Nat := (i % (2 ^ 64 : Int)).toNat

/-- The Go cast int64(n) of a uint64 value. -/
def int64OfUint64 (n : Nat) : Int :=
  if n < 2 ^ 63 then (n : Int) else (n : Int) - 2 ^ 64

/-- entry.Set (src/cache/misc.go lines 323-332): frame the payload behind
    an eight-byte big-endian header holding the absolute Unix-seconds
    expiration now+ttl; returns the framed bytes and the expiration. -/
def entrySet (now ttl : Int) (b : Bytes) : Bytes × Int :=
  let expired := now + ttl
  (putUint64BE (uint64OfInt expired) ++ b, expired)

/-- entry.Get (src/cache/misc.go lines 333-349): a buffer shorter than
    eight bytes is ErrNotFound; a header strictly before the current time
    is ErrNotFound; otherwise the payload after the header is returned
    together with the decoded expiration. -/
def entryGet (now : Int) (e : Bytes) : Except CacheErr (Bytes × Int) :=
  if e.length < 8 then .error .notFound
  else
    let expired := int64OfUint64 (getUint64BE e)
    if expired < now then .error .notFound
    else .ok (e.drop 8, expired)

/-- A Group Cache tier (one sub cache engine of cachegroup.Cache.SubCaches),
    seen through the storage contract of the spec: TTL is the tier
    configured TTL, store records per key the stored bytes together with
    the ttl value the write was issued with, and setErr programs the reply
    of this backend to writes (none = the write is performed and succeeds,
    some e = the backend rejects the write with e and stores nothing). -/
structure SubCache where
  TTL : Int
  store : List (String × Bytes × Int)
  setErr : Option CacheErr
  deriving DecidableEq, Repr

/-- Storage contract read: the bytes stored under key, ErrNotFound when
    the key is absent. -/
def SubCache.GetBytesValue (c : SubCache) (key : String) : Except CacheErr Bytes :=
  match assocFind key c.store with
  | some bv => .ok bv.1
  | none => .error .notFound

/-- Storage contract write: store the bytes under key with the given ttl,
    unless this backend rejects the write. -/
def SubCache.SetBytesValue (c : SubCache) (key : String) (b : Bytes) (ttl : Int) :
    Option CacheErr × SubCache :=
  match c.setErr with
  | some e => (some e, c)
  | none => (none, { c with store := assocSet key (b, ttl) c.store })

/-- Storage contract update: write only when the key exists; absence is a
    silent no-op, not an error. -/
def SubCache.UpdateBytesValue (c : SubCache) (key : String) (b : Bytes) (ttl : Int) :
    Option CacheErr × SubCache :=
  match c.setErr with
  | some e => (some e, c)
  | none =>
    match assocFind key c.store with
    | some _ => (none, { c with store := assocSet key (b, ttl) c.store })
    | none => (none, c)

/-- cachegroup modeSet constant. -/
def modeSet : Nat := 0

/-- cachegroup modeUpdate constant. -/
def modeUpdate : Nat := 1

/-- The per-tier ttl computation inlined in Cache.setBytesCaches
    (src/cache/misc.go lines 366-383): t is the remaining lifetime to the
    absolute expiration, vTTL the tier configured TTL. -/
def effTTL (t vTTL : Int) : Int :=
  if t < 0 then
    (if vTTL < 0 then -1 else vTTL)
  else
    (if vTTL < 0 then t else (if vTTL < t then vTTL else t))

/-- The loop body of Cache.setBytesCaches (src/cache/misc.go lines 360-394)
    as a recursion over the tier list: write the framed bytes to every
    tier with its capped ttl, keeping as finalErr the last error that is
    neither nil nor ErrNotCacheable nor ErrEntryTooLarge (errors of later
    tiers override earlier ones, mirroring the loop order). -/
def setBytesCachesGo (key : String) (b : Bytes) (t : Int) (mode : Nat) :
    List SubCache → Option CacheErr × List SubCache
  | [] => (none, [])
  | v :: rest =>
    let ttl := effTTL t v.TTL
    let r := if mode = modeSet then v.SetBytesValue key b ttl
             else v.UpdateBytesValue key b ttl
    let q : Option CacheErr :=
      match r.1 with
      | some e => if e = .notCacheable ∨ e = .entryTooLarge then none else some e
      | none => none
    let tail := setBytesCachesGo key b t mode rest
    ((match tail.1 with
      | some e => some e
      | none => q), r.2 :: tail.2)

/-- Cache.setBytesCaches (src/cache/misc.go lines 360-394): computes the
    remaining lifetime t = expired - now once and writes all the given
    tiers. -/
def setBytesCaches (now : Int) (key : String) (caches : List SubCache)
    (b : Bytes) (expired : Int) (mode : Nat) : Option CacheErr × List SubCache :=
  setBytesCachesGo key b (expired - now) mode caches

/-- Split a list into its front and its last element. -/
def splitLast : List α → Option (List α × α)
  | [] => none
  | [x] => some ([], x)
  | x :: y :: rest =>
    match splitLast (y :: rest) with
    | some p => some (x :: p.1, p.2)
    | none => none

/-- cachegroup Cache.SetBytesValue (src/cache/misc.go lines 396-408):
    frame the payload, write the framed entry to the last tier with the
    raw requested ttl; a hard error there (neither nil nor ErrNotCacheable
    nor ErrEntryTooLarge) aborts; otherwise propagate the entry to the
    remaining tiers through setBytesCaches and return its finalErr. The
    Go code indexes SubCaches[len-1]; an empty tier list panics. -/
def GroupSetBytesValue (now : Int) (caches : List SubCache) (key : String)
    (b : Bytes) (ttl : Int) : Option CacheErr × List SubCache :=
  let se := entrySet now ttl b
  match splitLast caches with
  | none => (some .panicked, caches)
  | some (front, last) =>
    let r := last.SetBytesValue key se.1 ttl
    if r.1 ≠ some .notCacheable ∧ r.1 ≠ some .entryTooLarge ∧ r.1 ≠ none then
      (r.1, front ++ [r.2])
    else
      let pr := setBytesCaches now key front se.1 se.2 modeSet
      (pr.1, pr.2 ++ [r.2])

/-- cachegroup Cache.UpdateBytesValue (src/cache/misc.go lines 410-422):
    same cascade as SetBytesValue with update-only semantics per tier. -/
def GroupUpdateBytesValue (now : Int) (caches : List SubCache) (key : String)
    (b : Bytes) (ttl : Int) : Option CacheErr × List SubCache :=
  let se := entrySet now ttl b
  match splitLast caches with
  | none => (some .panicked, caches)
  | some (front, last) =>
    let r := last.UpdateBytesValue key se.1 ttl
    if r.1 ≠ some .notCacheable ∧ r.1 ≠ some .entryTooLarge ∧ r.1 ≠ none then
      (r.1, front ++ [r.2])
    else
      let pr := setBytesCaches now key front se.1 se.2 modeUpdate
      (pr.1, pr.2 ++ [r.2])

/-- The tier scan loop of cachegroup Cache.GetBytesValue (src/cache/misc.go
    lines 430-438): walk the tiers in list order, collecting the tiers
    that answered ErrNotFound, and stop at the first tier that answers
    anything else, returning it with its answer and the unvisited rest. -/
def scanTiers (key : String) :
    List SubCache → List SubCache × Option (Except CacheErr Bytes × SubCache × List SubCache)
  | [] => ([], none)
  | c :: rest =>
    match c.GetBytesValue key with
    | .error .notFound =>
      let m := scanTiers key rest
      (c :: m.1, m.2)
    | res => ([], some (res, c, rest))

/-- cachegroup Cache.GetBytesValue (src/cache/misc.go lines 426-450): scan
    the tiers in list order; when every tier answers ErrNotFound the
    result is ErrNotFound (in the Go code the value of err after the loop,
    and entry.Get on the nil buffer for an empty tier list); a hard read
    error is returned as is; otherwise decode the entry of the first tier
    that answered (expired or malformed gives ErrNotFound with no further
    tier consulted), back-fill the collected missed tiers with the framed
    bytes (the error of that back-fill is discarded, line 448) and return
    the payload. -/
def GroupGetBytesValue (now : Int) (caches : List SubCache) (key : String) :
    Except CacheErr Bytes × List SubCache :=
  match scanTiers key caches with
  | (_, none) => (.error .notFound, caches)
  | (_, some (.error e, _, _)) => (.error e, caches)
  | (missed, some (.ok b, c, rest)) =>
    match entryGet now b with
    | .error e => (.error e, caches)
    | .ok be =>
      let pr := setBytesCaches now key missed b be.2 modeSet
      (.ok be.1, pr.2 ++ c :: rest)

/-- cachegroup Cache.Expire (src/cache/misc.go lines 351-359): read the
    current bytes through GetBytesValue, propagating its error, then
    rewrite them with the new ttl through SetBytesValue. -/
def GroupExpire (now : Int) (caches : List SubCache) (key : String) (ttl : Int) :
    Option CacheErr × List SubCache :=
  match GroupGetBytesValue now caches key with
  | (.error e, caches2) => (some e, caches2)
  | (.ok b, caches2) => GroupSetBytesValue now caches2 key b ttl

/-- Modelled from the spec: the cache engine state (type cache.Cache, whose
    implementation is not under src). TTL is the configured default ttl
    (spec 4.1, applied when an operation receives ttl = 0); store holds the
    byte-value entries and counters the counter entries, two independent
    namespaces (spec 3, Counter). -/
structure CacheEngine where
  TTL : Int
  store : List (String × Bytes × Int)
  counters : List (String × Int × Int)
  deriving DecidableEq, Repr

/-- Modelled from the spec: default ttl substitution, zero means use the
    configured default (spec 3, TTL). -/
def engineTTL (s : CacheEngine) (ttl : Int) : Int :=
  if ttl = 0 then s.TTL else ttl

/-- Modelled from the spec: cache.Cache.SetBytesValue. Empty key fails
    with ErrKeyUnavailable before touching storage (spec 4.1); otherwise
    the bytes are stored under the key. -/
def engineSetBytesValue (s : CacheEngine) (key : String) (b : Bytes) (ttl : Int) :
    Option CacheErr × CacheEngine :=
  if key = "" then (some .keyUnavailable, s)
  else (none, { s with store := assocSet key (b, engineTTL s ttl) s.store })

/-- Modelled from the spec: cache.Cache.GetBytesValue. Empty key fails
    with ErrKeyUnavailable; an absent key is ErrNotFound. -/
def engineGetBytesValue (s : CacheEngine) (key : String) : Except CacheErr Bytes :=
  if key = "" then .error .keyUnavailable
  else
    match assocFind key s.store with
    | some bv => .ok bv.1
    | none => .error .notFound

/-- Modelled from the spec: cache.Cache.UpdateBytesValue. Empty key fails
    with ErrKeyUnavailable; writes only when the key exists, absence is a
    silent no-op (spec 4.1, Update). -/
def engineUpdateBytesValue (s : CacheEngine) (key : String) (b : Bytes) (ttl : Int) :
    Option CacheErr × CacheEngine :=
  if key = "" then (some .keyUnavailable, s)
  else
    match assocFind key s.store with
    | some _ => (none, { s with store := assocSet key (b, engineTTL s ttl) s.store })
    | none => (none, s)

/-- Modelled from the spec: cache.Cache.Del. Empty key fails with
    ErrKeyUnavailable; deleting an absent key is not an error (spec 4.1). -/
def engineDel (s : CacheEngine) (key : String) : Option CacheErr × CacheEngine :=
  if key = "" then (some .keyUnavailable, s)
  else (none, { s with store := assocDel key s.store })

/-- Modelled from the spec: cache.Cache.Set, the typed write: serialize
    through the codec (the marshal parameter m) then store (spec 4.1). -/
def engineSet (m : α → Bytes) (s : CacheEngine) (key : String) (v : α) (ttl : Int) :
    Option CacheErr × CacheEngine :=
  engineSetBytesValue s key (m v) ttl

/-- Modelled from the spec: cache.Cache.Update, the typed update-only
    write (spec 4.1). -/
def engineUpdate (m : α → Bytes) (s : CacheEngine) (key : String) (v : α) (ttl : Int) :
    Option CacheErr × CacheEngine :=
  engineUpdateBytesValue s key (m v) ttl

/-- Modelled from the spec: cache.Cache.Get, the typed read: read raw
    bytes then deserialize through the codec (the unmarshal parameter u)
    (spec 4.1). -/
def engineGet (u : Bytes → Except CacheErr α) (s : CacheEngine) (key : String) :
    Except CacheErr α :=
  match engineGetBytesValue s key with
  | .ok b => u b
  | .error e => .error e

/-- Modelled from the spec: cache.Cache.SetCounter (spec 4.1, counters are
    an independent namespace). -/
def engineSetCounter (s : CacheEngine) (key : String) (v : Int) (ttl : Int) :
    Option CacheErr × CacheEngine :=
  if key = "" then (some .keyUnavailable, s)
  else (none, { s with counters := assocSet key (v, engineTTL s ttl) s.counters })

/-- Modelled from the spec: cache.Cache.GetCounter; absent is ErrNotFound
    (spec 7). -/
def engineGetCounter (s : CacheEngine) (key : String) : Except CacheErr Int :=
  if key = "" then .error .keyUnavailable
  else
    match assocFind key s.counters with
    | some vt => .ok vt.1
    | none => .error .notFound

/-- Modelled from the spec: cache.Cache.IncrCounter: returns the
    post-increment value, creating the counter with the increment as
    initial value when absent (spec 4.1). -/
def engineIncrCounter (s : CacheEngine) (key : String) (increment : Int) (ttl : Int) :
    Except CacheErr Int × CacheEngine :=
  if key = "" then (.error .keyUnavailable, s)
  else
    match assocFind key s.counters with
    | some vt =>
      (.ok (vt.1 + increment),
       { s with counters := assocSet key (vt.1 + increment, engineTTL s ttl) s.counters })
    | none =>
      (.ok increment,
       { s with counters := assocSet key (increment, engineTTL s ttl) s.counters })

/-- Modelled from the spec: cache.Cache.DelCounter; absence is a silent
    no-op (spec 7). -/
def engineDelCounter (s : CacheEngine) (key : String) : Option CacheErr × CacheEngine :=
  if key = "" then (some .keyUnavailable, s)
  else (none, { s with counters := assocDel key s.counters })

/-- Modelled from the spec: cache.Cache.Expire: re-read the current value
    and rewrite it with the new ttl; a missing key is not an error
    (spec 4.1, confirmed by TestNotFound in src/unnamed/part_000). -/
def engineExpire (s : CacheEngine) (key : String) (ttl : Int) :
    Option CacheErr × CacheEngine :=
  if key = "" then (some .keyUnavailable, s)
  else
    match assocFind key s.store with
    | some bv => (none, { s with store := assocSet key (bv.1, engineTTL s ttl) s.store })
    | none => (none, s)

/-- Modelled from the spec: cache.Cache.ExpireCounter, the counter twin of
    Expire (spec 4.1, confirmed by TestNotFound in src/unnamed/part_000). -/
def engineExpireCounter (s : CacheEngine) (key : String) (ttl : Int) :
    Option CacheErr × CacheEngine :=
  if key = "" then (some .keyUnavailable, s)
  else
    match assocFind key s.counters with
    | some vt => (none, { s with counters := assocSet key (vt.1, engineTTL s ttl) s.counters })
    | none => (none, s)

/-- Modelled from the spec: cache.Cache.Load, sequential semantics of the
    protocol of spec 4.1 for a single caller: validate the key, try Get,
    on ErrNotFound invoke the loader, cache its value on success with Set,
    propagate its error untouched on failure (the concurrent semantics is
    the LoadStep system below). -/
def engineLoad (m : α → Bytes) (u : Bytes → Except CacheErr α) (s : CacheEngine)
    (key : String) (ttl : Int) (loader : String → Except CacheErr α) :
    Except CacheErr α × CacheEngine :=
  if key = "" then (.error .keyUnavailable, s)
  else
    match engineGetBytesValue s key with
    | .ok b => (u b, s)
    | .error .notFound =>
      match loader key with
      | .ok v =>
        let r := engineSetBytesValue s key (m v) ttl
        (.ok v, r.2)
      | .error e => (.error e, s)
    | .error e => (.error e, s)

/-- Modelled from the spec: the package-level constant cache.KeyPrefix,
    the separator inserted between a wrapper prefix and the caller key
    (spec 4.3). Its definition is not under src and its concrete value is
    immaterial to the theorems below, which depend only on concatenation
    structure; a fixed placeholder value stands in for it. -/
def KeyPrefix : String := ":"

/-- Modelled from the spec: cache.Cache.FinalKey, which prepends the
    engine key prefix P to the raw key it is handed (spec 3, Final Key;
    TestFinalKey in src/unnamed/part_000 exhibits it with P = KeyPrefix
    for a default-configured engine). -/
def cacheFinalKey (P key : String) : String := P ++ key

/-- Node.GetCacheKey (src/cache/misc.go lines 99-101): the Node prefix,
    then KeyPrefix, then the caller key. -/
def NodeGetCacheKey (pfx key : String) : String := pfx ++ KeyPrefix ++ key

/-- Node.FinalKey (src/cache/misc.go lines 296-299): hand the prefixed key
    to the underlying engine FinalKey. -/
def NodeFinalKey (P pfx key : String) : String :=
  cacheFinalKey P (NodeGetCacheKey pfx key)

/-- RegisterMarshaler (src/cache/marshaler.go lines 29-42): panics
    (modelled as the none result) when the factory is nil (modelled as a
    none argument) or when the name is already registered; otherwise the
    registry maps the name to the factory. -/
def RegisterMarshaler (reg : List (String × F)) (name : String) (f : Option F) :
    Option (List (String × F)) :=
  match f with
  | none => none
  | some factory =>
    match assocFind name reg with
    | some _ => none
    | none => some ((name, factory) :: reg)

/-- NewMarshaler (src/cache/marshaler.go lines 64-78): an unregistered
    name yields a returned error (never a panic); a registered name
    invokes its factory. -/
def NewMarshaler (reg : List (String × (Unit → Except String M))) (name : String) :
    Except String M :=
  match assocFind name reg with
  | none => .error ("cache: unknown marshaler " ++ name ++ " (forgotten import?)")
  | some factory => factory ()

/-- Modelled from the spec: the program counter of one caller running the
    Load protocol of spec 4.1 on a fixed key: start (about to Get), then
    after ErrNotFound waiting on the per-key lock, then holding the lock
    (about to re-Get), then running the loader, then done with a result. -/
inductive LoadPc (V E : Type) where
  | start
  | lockWait
  | locked
  | loading
  | done (r : Except E V)

/-- Modelled from the spec: the shared state of n concurrent Load callers
    on one key of one cache engine instance: the cached value for that key
    (none = absent), the holder of the per-key lock, each caller program
    counter, and how many times the loader has been invoked. -/
structure LoadSys (n : Nat) (V E : Type) where
  cache : Option V
  lock : Option (Fin n)
  pc : Fin n → LoadPc V E
  loadCount : Nat

/-- Modelled from the spec: the initial state of the Load protocol for a
    key absent from cache: no value, lock free, every caller at start, the
    loader never invoked. -/
def loadInit (n : Nat) (V E : Type) : LoadSys n V E :=
  { cache := none, lock := none, pc := fun _ => .start, loadCount := 0 }

/-- Modelled from the spec: one interleaving step of n concurrent Load
    callers (spec 4.1 protocol, steps 2-7), for a loader whose (fixed)
    outcome is the parameter l. A caller Gets and finishes on a hit, or
    moves to wait for the lock on ErrNotFound; acquires the free lock;
    re-Gets under the lock, releasing and finishing on a hit; otherwise
    invokes the loader; on loader success stores the value, releases and
    finishes with it; on loader failure releases and finishes with the
    error, caching nothing. -/
inductive LoadStep (l : Except E V) :
    LoadSys n V E → LoadSys n V E → Prop where
  | get1Hit (s : LoadSys n V E) (i : Fin n) (v : V) :
      s.pc i = .start → s.cache = some v →
      LoadStep l s { s with pc := Function.update s.pc i (.done (.ok v)) }
  | get1Miss (s : LoadSys n V E) (i : Fin n) :
      s.pc i = .start → s.cache = none →
      LoadStep l s { s with pc := Function.update s.pc i .lockWait }
  | acquire (s : LoadSys n V E) (i : Fin n) :
      s.pc i = .lockWait → s.lock = none →
      LoadStep l s { s with lock := some i, pc := Function.update s.pc i .locked }
  | get2Hit (s : LoadSys n V E) (i : Fin n) (v : V) :
      s.pc i = .locked → s.lock = some i → s.cache = some v →
      LoadStep l s { s with lock := none,
                            pc := Function.update s.pc i (.done (.ok v)) }
  | get2Miss (s : LoadSys n V E) (i : Fin n) :
      s.pc i = .locked → s.lock = some i → s.cache = none →
      LoadStep l s { s with pc := Function.update s.pc i .loading,
                            loadCount := s.loadCount + 1 }
  | loadOk (s : LoadSys n V E) (i : Fin n) (v : V) :
      s.pc i = .loading → s.lock = some i → l = .ok v →
      LoadStep l s { s with cache := some v, lock := none,
                            pc := Function.update s.pc i (.done (.ok v)) }
  | loadErr (s : LoadSys n V E) (i : Fin n) (e : E) :
      s.pc i = .loading → s.lock = some i → l = .error e →
      LoadStep l s { s with lock := none,
                            pc := Function.update s.pc i (.done (.error e)) }

/-- States reachable by interleaving Load steps from the initial state. -/
def LoadReachable (l : Except E V) (s : LoadSys n V E) : Prop :=
  Relation.ReflTransGen (LoadStep l) (loadInit n V E) s

/-- The hard (fatal) component of the reply a tier gives to a write:
    ErrNotCacheable and ErrEntryTooLarge are advisory and discarded, any
    other error is kept (the qualification test of setBytesCaches line 389
    and of SetBytesValue line 403). -/
def hardErr (v : SubCache) : Option CacheErr :=
  match v.setErr with
  | some e => if e = .notCacheable ∨ e = .entryTooLarge then none else some e
  | none => none

/-- The last hard write error across a tier list, in iteration order:
    the first hard one when walking the list right to left. -/
def lastHardError (caches : List SubCache) : Option CacheErr :=
  caches.reverse.findSome? hardErr

/- ------------------------------------------------------------------ -/
/- Theorems.                                                           -/
/- ------------------------------------------------------------------ -/

theorem assocFind_assocSet (key : String) (v : α) (l : List (String × α)) :
    assocFind key (assocSet key v l) = some v := by
  induction l with
  | nil => simp [assocSet, assocFind]
  | cons hd tl ih =>
    obtain ⟨k, w⟩ := hd
    by_cases h : k = key
    · simp [assocSet, assocFind, h]
    · simp [assocSet, assocFind, h, ih]

theorem getUint64BE_putUint64BE (n : Nat) (h : n < 2 ^ 64) :
    getUint64BE (putUint64BE n) = n := by
  simp only [putUint64BE, getUint64BE]
  omega

theorem getUint64BE_putUint64BE_append (n : Nat) (b : Bytes) (h : n < 2 ^ 64) :
    getUint64BE (putUint64BE n ++ b) = n := by
  simp only [putUint64BE, getUint64BE, List.cons_append, List.nil_append]
  omega

theorem int64OfUint64_uint64OfInt (i : Int) (h1 : -(2 ^ 63) ≤ i)
    (h2 : i < 2 ^ 63) : int64OfUint64 (uint64OfInt i) = i := by
  simp only [uint64OfInt, int64OfUint64]
  split <;> omega


theorem findSome?_append (f : α → Option β) (l1 l2 : List α) :
    (l1 ++ l2).findSome? f =
      match l1.findSome? f with
      | some b => some b
      | none => l2.findSome? f := by
  induction l1 with
  | nil => simp [List.findSome?]
  | cons a rest ih =>
    simp only [List.cons_append, List.findSome?]
    cases f a <;> simp [ih]

theorem lastHardError_nil : lastHardError [] = none := rfl

theorem lastHardError_cons (v : SubCache) (rest : List SubCache) :
    lastHardError (v :: rest) =
      match lastHardError rest with
      | some e => some e
      | none => hardErr v := by
  simp only [lastHardError, List.reverse_cons, findSome?_append]
  cases rest.reverse.findSome? hardErr
  · simp only [List.findSome?]
    cases hardErr v <;> rfl
  · rfl

theorem SubCache.setBytesValue_fst (c : SubCache) (key : String) (b : Bytes)
    (ttl : Int) : (c.SetBytesValue key b ttl).1 = c.setErr := by
  cases h : c.setErr <;> simp [SubCache.SetBytesValue, h]

theorem SubCache.updateBytesValue_fst (c : SubCache) (key : String) (b : Bytes)
    (ttl : Int) : (c.UpdateBytesValue key b ttl).1 = c.setErr := by
  cases h : c.setErr <;>
    simp only [SubCache.UpdateBytesValue, h] <;>
    cases assocFind key c.store <;> rfl

theorem setBytesCachesGo_fst (key : String) (b : Bytes) (t : Int) (mode : Nat)
    (l : List SubCache) :
    (setBytesCachesGo key b t mode l).1 = lastHardError l := by
  induction l with
  | nil => rfl
  | cons v rest ih =>
    rw [lastHardError_cons]
    simp only [setBytesCachesGo]
    rw [ih]
    have hw : (if mode = modeSet then v.SetBytesValue key b (effTTL t v.TTL)
               else v.UpdateBytesValue key b (effTTL t v.TTL)).1 = v.setErr := by
      split
      · exact v.setBytesValue_fst key b (effTTL t v.TTL)
      · exact v.updateBytesValue_fst key b (effTTL t v.TTL)
    rw [hw]
    rfl

theorem setBytesCachesGo_snd_set (key : String) (b : Bytes) (t : Int)
    (l : List SubCache) :
    (setBytesCachesGo key b t modeSet l).2
      = l.map (fun v => (v.SetBytesValue key b (effTTL t v.TTL)).2) := by
  induction l with
  | nil => rfl
  | cons v rest ih =>
    simp only [setBytesCachesGo, List.map, if_pos rfl, if_true]
    rw [ih]

theorem setBytesCachesGo_snd_set_ok (key : String) (b : Bytes) (t : Int)
    (l : List SubCache) (h : ∀ v ∈ l, v.setErr = none) :
    (setBytesCachesGo key b t modeSet l).2
      = l.map (fun v => { v with store := assocSet key (b, effTTL t v.TTL) v.store }) := by
  rw [setBytesCachesGo_snd_set]
  apply List.map_congr_left
  intro v hv
  simp [SubCache.SetBytesValue, h v hv]

theorem setBytesCachesGo_snd_update_ok (key : String) (b : Bytes) (t : Int)
    (l : List SubCache) (h : ∀ v ∈ l, v.setErr = none)
    (hp : ∀ v ∈ l, (assocFind key v.store).isSome) :
    (setBytesCachesGo key b t modeUpdate l).2
      = l.map (fun v => { v with store := assocSet key (b, effTTL t v.TTL) v.store }) := by
  induction l with
  | nil => rfl
  | cons v rest ih =>
    have hv := h v (by simp)
    have hpv := hp v (by simp)
    simp only [setBytesCachesGo, List.map]
    have : (modeUpdate = modeSet) = False := by simp [modeUpdate, modeSet]
    rw [if_neg (by simp [modeUpdate, modeSet])]
    rw [ih (fun x hx => h x (by simp [hx])) (fun x hx => hp x (by simp [hx]))]
    obtain ⟨bv, hbv⟩ := Option.isSome_iff_exists.mp hpv
    simp [SubCache.UpdateBytesValue, hv, hbv]

theorem scanTiers_all_miss (key : String) (l : List SubCache)
    (h : ∀ c ∈ l, assocFind key c.store = none) :
    scanTiers key l = (l, none) := by
  induction l with
  | nil => rfl
  | cons c rest ih =>
    have hc : c.GetBytesValue key = .error .notFound := by
      simp [SubCache.GetBytesValue, h c (by simp)]
    simp [scanTiers, hc, ih (fun x hx => h x (by simp [hx]))]

theorem scanTiers_append_hit (key : String) (missed : List SubCache)
    (h : SubCache) (rest : List SubCache) (b : Bytes) (ttlr : Int)
    (hm : ∀ c ∈ missed, assocFind key c.store = none)
    (hh : assocFind key h.store = some (b, ttlr)) :
    scanTiers key (missed ++ h :: rest) = (missed, some (.ok b, h, rest)) := by
  induction missed with
  | nil =>
    have hg : h.GetBytesValue key = .ok b := by
      simp [SubCache.GetBytesValue, hh]
    simp [scanTiers, hg]
  | cons c mrest ih =>
    have hc : c.GetBytesValue key = .error .notFound := by
      simp [SubCache.GetBytesValue, hm c (by simp)]
    simp [scanTiers, hc, ih (fun x hx => hm x (by simp [hx]))]

/-- C2 (amended): the Group Cache read state machine of the code. Tiers
    are queried in list order starting at index 0; a tier answering
    not-found causes advance to the next tier; when every tier answers
    not-found the result is ErrNotFound. The scan stops at the first tier
    that returns an entry: when that entry is found-and-valid, the decoded
    payload is returned and exactly the tiers that answered not-found are
    back-filled with the framed entry, each afterward independently
    resolving the same payload; but when the first returned entry is
    expired or malformed the result is ErrNotFound at once, with no later
    tier consulted (no advance past a tier that holds an expired entry),
    and no tier modified. -/
theorem c2_group_read_state_machine :
    (∀ now key caches, (∀ c ∈ caches, assocFind key c.store = none) →
      GroupGetBytesValue now caches key = (.error .notFound, caches)) ∧
    (∀ now key missed h rest b ttlr buf expired,
      (∀ c ∈ missed, assocFind key c.store = none) →
      assocFind key h.store = some (b, ttlr) →
      entryGet now b = .ok (buf, expired) →
      GroupGetBytesValue now (missed ++ h :: rest) key
        = (.ok buf, (setBytesCaches now key missed b expired modeSet).2 ++ h :: rest) ∧
      ((∀ c ∈ missed, c.setErr = none) →
        ∀ c2 ∈ (setBytesCaches now key missed b expired modeSet).2,
          c2.GetBytesValue key = .ok b)) ∧
    (∀ now key missed h rest b ttlr e,
      (∀ c ∈ missed, assocFind key c.store = none) →
      assocFind key h.store = some (b, ttlr) →
      entryGet now b = .error e →
      GroupGetBytesValue now (missed ++ h :: rest) key
        = (.error e, missed ++ h :: rest)) := by
  refine ⟨?_, ?_, ?_⟩
  · intro now key caches hm
    simp [GroupGetBytesValue, scanTiers_all_miss key caches hm]
  · intro now key missed h rest b ttlr buf expired hm hh he
    constructor
    · simp [GroupGetBytesValue, scanTiers_append_hit key missed h rest b ttlr hm hh, he]
    · intro hok c2 hc2
      rw [setBytesCaches, setBytesCachesGo_snd_set_ok _ _ _ _ hok] at hc2
      obtain ⟨c0, hc0, rfl⟩ := List.mem_map.mp hc2
      simp [SubCache.GetBytesValue, assocFind_assocSet]
  · intro now key missed h rest b ttlr e hm hh he
    simp [GroupGetBytesValue, scanTiers_append_hit key missed h rest b ttlr hm hh, he]

/-- C2 (counterexample): two tiers, tier 0 holding an entry whose inline
    header (expiration 50) is past at read time 100, tier 1 holding an
    entry that is still valid at time 100 and decodes to the payload 2.
    The claim says the read advances past the expired tier 0 and returns
    tier 1 payload; the code stops at tier 0 and returns ErrNotFound. -/
theorem c2_counterexample :
    (GroupGetBytesValue 100
      [⟨-1, [("k", ((entrySet 0 50 [1]).1, 10))], none⟩,
       ⟨-1, [("k", ((entrySet 0 1000 [2]).1, 10))], none⟩] "k").1
      = .error .notFound ∧
    entryGet 100 (entrySet 0 1000 [2]).1 = .ok ([2], 1000) := by
  constructor <;> rfl

/-- C2 (witness): the amended theorem at a concrete input: a missing fast
    tier backed by a slow tier holding a valid entry for payload 2; the
    read returns 2 and back-fills the fast tier, which afterward resolves
    the same entry. -/
theorem c2_witness :
    GroupGetBytesValue 100
      [⟨500, [], none⟩, ⟨-1, [("k", ((entrySet 0 1000 [2]).1, 10))], none⟩] "k"
      = (.ok [2],
         [⟨500, [("k", ((entrySet 0 1000 [2]).1, 500))], none⟩,
          ⟨-1, [("k", ((entrySet 0 1000 [2]).1, 10))], none⟩]) ∧
    SubCache.GetBytesValue ⟨500, [("k", ((entrySet 0 1000 [2]).1, 500))], none⟩ "k"
      = .ok (entrySet 0 1000 [2]).1 := by
  have h := (c2_group_read_state_machine.2.1 100 "k" [⟨500, [], none⟩]
    ⟨-1, [("k", ((entrySet 0 1000 [2]).1, 10))], none⟩ [] (entrySet 0 1000 [2]).1 10 [2] 1000
    (by intro c hc; simp at hc; subst hc; rfl) rfl rfl).1
  constructor
  · exact h.trans (by rfl)
  · rfl

theorem splitLast_append (l : List α) (x : α) : splitLast (l ++ [x]) = some (l, x) := by
  induction l with
  | nil => rfl
  | cons a rest ih =>
    cases rest with
    | nil => rfl
    | cons b rest2 =>
      simp only [List.cons_append] at ih ⊢
      simp [splitLast, ih]

theorem lastHardError_none (l : List SubCache) (h : ∀ v ∈ l, v.setErr = none) :
    lastHardError l = none := by
  induction l with
  | nil => rfl
  | cons v rest ih =>
    rw [lastHardError_cons, ih (fun x hx => h x (by simp [hx]))]
    simp [hardErr, h v (by simp)]

/-- C3 (amended): per-tier effective write TTL of a Group Cache write.
    The first-written (last, fastest) tier receives the raw requested ttl,
    uncapped; every remaining tier the entry is propagated to receives
    effTTL(remaining lifetime, tier TTL), which equals min(remaining, tier
    TTL) when both are nonnegative, the remaining lifetime when the tier
    TTL is negative (never expires), -1 (never expires) when both are
    negative, and the tier TTL (not the min) when only the remaining
    lifetime is negative. The same capping applies to UpdateBytesValue. -/
theorem c3_group_write_ttl :
    (∀ now key b ttl (front : List SubCache) (last : SubCache),
      (∀ v ∈ front, v.setErr = none) → last.setErr = none →
      GroupSetBytesValue now (front ++ [last]) key b ttl
        = (none,
           front.map (fun v =>
             { v with store := assocSet key ((entrySet now ttl b).1, effTTL ttl v.TTL) v.store })
             ++ [{ last with store := assocSet key ((entrySet now ttl b).1, ttl) last.store }])) ∧
    (∀ now key b ttl (front : List SubCache) (last : SubCache),
      (∀ v ∈ front, v.setErr = none) → last.setErr = none →
      (∀ v ∈ front, (assocFind key v.store).isSome) →
      (assocFind key last.store).isSome →
      GroupUpdateBytesValue now (front ++ [last]) key b ttl
        = (none,
           front.map (fun v =>
             { v with store := assocSet key ((entrySet now ttl b).1, effTTL ttl v.TTL) v.store })
             ++ [{ last with store := assocSet key ((entrySet now ttl b).1, ttl) last.store }])) ∧
    (∀ t vTTL : Int, 0 ≤ t → 0 ≤ vTTL → effTTL t vTTL = min t vTTL) ∧
    (∀ t vTTL : Int, 0 ≤ t → vTTL < 0 → effTTL t vTTL = t) ∧
    (∀ t vTTL : Int, t < 0 → vTTL < 0 → effTTL t vTTL = -1) ∧
    (∀ t vTTL : Int, t < 0 → 0 ≤ vTTL → effTTL t vTTL = vTTL) := by
  refine ⟨?_, ?_, ?_, ?_, ?_, ?_⟩
  · intro now key b ttl front last hf hl
    simp only [GroupSetBytesValue, splitLast_append]
    have hw : last.SetBytesValue key (entrySet now ttl b).1 ttl
        = (none, { last with store := assocSet key ((entrySet now ttl b).1, ttl) last.store }) := by
      simp [SubCache.SetBytesValue, hl]
    simp only [hw]
    simp only [ne_eq, not_true_eq_false, and_false, if_false]
    have ht : (entrySet now ttl b).2 - now = ttl := by
      simp [entrySet]
    rw [setBytesCaches, ht, setBytesCachesGo_fst, lastHardError_none front hf,
      setBytesCachesGo_snd_set_ok key (entrySet now ttl b).1 ttl front hf]
  · intro now key b ttl front last hf hl hfp hlp
    simp only [GroupUpdateBytesValue, splitLast_append]
    obtain ⟨bv, hbv⟩ := Option.isSome_iff_exists.mp hlp
    have hw : last.UpdateBytesValue key (entrySet now ttl b).1 ttl
        = (none, { last with store := assocSet key ((entrySet now ttl b).1, ttl) last.store }) := by
      simp [SubCache.UpdateBytesValue, hl, hbv]
    simp only [hw]
    simp only [ne_eq, not_true_eq_false, and_false, if_false]
    have ht : (entrySet now ttl b).2 - now = ttl := by
      simp [entrySet]
    rw [setBytesCaches, ht, setBytesCachesGo_fst, lastHardError_none front hf,
      setBytesCachesGo_snd_update_ok key (entrySet now ttl b).1 ttl front hf hfp]
  · intro t vTTL h1 h2
    simp only [effTTL, min_def]
    split_ifs <;> omega
  · intro t vTTL h1 h2
    simp only [effTTL]
    split_ifs <;> omega
  · intro t vTTL h1 h2
    simp only [effTTL]
    split_ifs <;> omega
  · intro t vTTL h1 h2
    simp only [effTTL]
    split_ifs <;> omega

/-- C3 (counterexample): a group of two tiers with TTL 100 (propagated
    tier) and TTL 50 (fastest, written first), written with requested ttl
    200 at time 0. The fastest tier stores the entry with ttl 200, not
    min(200, 50) = 50 as the claim requires for every tier; the propagated
    tier is capped to 100. -/
theorem c3_counterexample :
    GroupSetBytesValue 0 [⟨100, [], none⟩, ⟨50, [], none⟩] "k" [7] 200
      = (none,
         [⟨100, [("k", ([0, 0, 0, 0, 0, 0, 0, 200, 7], 100))], none⟩,
          ⟨50, [("k", ([0, 0, 0, 0, 0, 0, 0, 200, 7], 200))], none⟩]) ∧
    (200 : Int) ≠ min 200 50 := by
  constructor
  · rfl
  · decide

/-- C3 (witness): the amended theorem instantiated at a two-tier group:
    requested ttl 200 at time 7, propagated tier TTL 100 stores with the
    capped ttl 100, fastest tier TTL 50 stores with the raw ttl 200; and
    the min characterization at 200 and 100. -/
theorem c3_witness :
    GroupSetBytesValue 7 [⟨100, [], none⟩, ⟨50, [], none⟩] "k" [9] 200
      = (none,
         [⟨100, [("k", ([0, 0, 0, 0, 0, 0, 0, 207, 9], 100))], none⟩,
          ⟨50, [("k", ([0, 0, 0, 0, 0, 0, 0, 207, 9], 200))], none⟩]) ∧
    effTTL 200 100 = min 200 100 := by
  constructor
  · exact (c3_group_write_ttl.1 7 "k" [9] 200 [⟨100, [], none⟩] ⟨50, [], none⟩
      (by intro v hv; simp at hv; subst hv; rfl) rfl).trans (by rfl)
  · exact c3_group_write_ttl.2.2.1 200 100 (by decide) (by decide)

theorem findSome?_none (f : α → Option β) (l : List α)
    (h : ∀ x ∈ l, f x = none) : l.findSome? f = none := by
  induction l with
  | nil => rfl
  | cons a rest ih =>
    simp only [List.findSome?, h a (by simp)]
    exact ih (fun x hx => h x (by simp [hx]))

/-- C4 (confirmed): error policy of a Group Cache write. An
    ErrEntryTooLarge or ErrNotCacheable reply from the first-written
    (last, fastest) tier is non-fatal: the entry is still propagated to
    all remaining tiers and the returned error is the last hard error
    among them; any other reply from that tier aborts the write, leaving
    the remaining tiers untouched, and is returned; when the first write
    succeeds the returned error is again the last hard error among the
    remaining tiers, where per-tier ErrEntryTooLarge and ErrNotCacheable
    are swallowed and the last tier with a hard error determines the
    result. -/
theorem c4_group_write_error_policy :
    (∀ now key b ttl (front : List SubCache) (last : SubCache) e0,
      last.setErr = some e0 → (e0 = .entryTooLarge ∨ e0 = .notCacheable) →
      GroupSetBytesValue now (front ++ [last]) key b ttl
        = (lastHardError front,
           (setBytesCaches now key front (entrySet now ttl b).1 (entrySet now ttl b).2 modeSet).2
             ++ [last]) ∧
      ((∀ v ∈ front, v.setErr = none) →
        (setBytesCaches now key front (entrySet now ttl b).1 (entrySet now ttl b).2 modeSet).2
          = front.map (fun v =>
              { v with store := assocSet key ((entrySet now ttl b).1, effTTL ttl v.TTL) v.store }))) ∧
    (∀ now key b ttl (front : List SubCache) (last : SubCache) e0,
      last.setErr = some e0 → e0 ≠ .entryTooLarge → e0 ≠ .notCacheable →
      GroupSetBytesValue now (front ++ [last]) key b ttl = (some e0, front ++ [last])) ∧
    (∀ now key b ttl (front : List SubCache) (last : SubCache),
      last.setErr = none →
      (GroupSetBytesValue now (front ++ [last]) key b ttl).1 = lastHardError front) ∧
    (∀ v : SubCache,
      (v.setErr = some .entryTooLarge ∨ v.setErr = some .notCacheable) → hardErr v = none) ∧
    (∀ (front1 : List SubCache) (v : SubCache) (front2 : List SubCache) e,
      (∀ w ∈ front2, hardErr w = none) → hardErr v = some e →
      lastHardError (front1 ++ v :: front2) = some e) := by
  refine ⟨?_, ?_, ?_, ?_, ?_⟩
  · intro now key b ttl front last e0 hl hadv
    have hw : last.SetBytesValue key (entrySet now ttl b).1 ttl = (some e0, last) := by
      simp [SubCache.SetBytesValue, hl]
    constructor
    · simp only [GroupSetBytesValue, splitLast_append, hw]
      have hcond : ¬((some e0 ≠ some CacheErr.notCacheable) ∧
          (some e0 ≠ some CacheErr.entryTooLarge) ∧ (some e0 ≠ (none : Option CacheErr))) := by
        rcases hadv with h | h <;> subst h <;> simp
      rw [if_neg hcond]
      rw [setBytesCaches, setBytesCachesGo_fst]
    · intro hok
      have ht : (entrySet now ttl b).2 - now = ttl := by simp [entrySet]
      rw [setBytesCaches, ht, setBytesCachesGo_snd_set_ok key (entrySet now ttl b).1 ttl front hok]
  · intro now key b ttl front last e0 hl hne1 hne2
    have hw : last.SetBytesValue key (entrySet now ttl b).1 ttl = (some e0, last) := by
      simp [SubCache.SetBytesValue, hl]
    simp only [GroupSetBytesValue, splitLast_append, hw]
    rw [if_pos ⟨by simp [hne2], by simp [hne1], by simp⟩]
  · intro now key b ttl front last hl
    have hw : last.SetBytesValue key (entrySet now ttl b).1 ttl
        = (none, { last with store := assocSet key ((entrySet now ttl b).1, ttl) last.store }) := by
      simp [SubCache.SetBytesValue, hl]
    simp only [GroupSetBytesValue, splitLast_append, hw]
    simp only [ne_eq, not_true_eq_false, and_false, if_false]
    rw [setBytesCaches, setBytesCachesGo_fst]
  · intro v h
    rcases h with h | h <;> simp [hardErr, h]
  · intro front1 v front2 e h2 hv
    simp only [lastHardError, List.reverse_append, List.reverse_cons]
    rw [List.append_assoc, findSome?_append, findSome?_append]
    rw [findSome?_none hardErr front2.reverse
      (fun x hx => h2 x (List.mem_reverse.mp hx))]
    simp [List.findSome?, hv]

/-- C4 (witness): the theorem at concrete inputs: an ErrEntryTooLarge
    reply from the fastest tier still propagates the entry to the
    remaining tier and reports no error, while a hard backend error from
    the fastest tier aborts and is returned with no tier modified. -/
theorem c4_witness :
    GroupSetBytesValue 0 [⟨10, [], none⟩, ⟨5, [], some .entryTooLarge⟩] "k" [1] 20
      = (none,
         [⟨10, [("k", ([0, 0, 0, 0, 0, 0, 0, 20, 1], 10))], none⟩,
          ⟨5, [], some .entryTooLarge⟩]) ∧
    GroupSetBytesValue 0 [⟨10, [], none⟩, ⟨5, [], some (.other 3)⟩] "k" [1] 20
      = (some (.other 3), [⟨10, [], none⟩, ⟨5, [], some (.other 3)⟩]) := by
  constructor
  · have h := c4_group_write_error_policy.1 0 "k" [1] 20 [⟨10, [], none⟩]
      ⟨5, [], some .entryTooLarge⟩ .entryTooLarge rfl (Or.inl rfl)
    exact h.1.trans (by rfl)
  · exact (c4_group_write_error_policy.2.1 0 "k" [1] 20 [⟨10, [], none⟩]
      ⟨5, [], some (.other 3)⟩ (.other 3) rfl (by decide) (by decide)).trans (by rfl)

theorem uint64OfInt_lt (i : Int) : uint64OfInt i < 2 ^ 64 := by
  simp only [uint64OfInt]
  omega

theorem entryGet_entrySet (now ttl : Int) (b : Bytes) (now2 : Int)
    (h1 : -(2 ^ 63) ≤ now + ttl) (h2 : now + ttl < 2 ^ 63) :
    entryGet now2 (entrySet now ttl b).1
      = if now + ttl < now2 then .error .notFound else .ok (b, now + ttl) := by
  have hlen : ¬((entrySet now ttl b).1.length < 8) := by
    simp [entrySet, putUint64BE]
  simp only [entryGet, hlen, if_false]
  have hdec : int64OfUint64 (getUint64BE (entrySet now ttl b).1) = now + ttl := by
    simp only [entrySet]
    rw [getUint64BE_putUint64BE_append _ _ (uint64OfInt_lt _)]
    exact int64OfUint64_uint64OfInt _ h1 h2
  rw [hdec]
  have hdrop : (entrySet now ttl b).1.drop 8 = b := by
    simp only [entrySet, putUint64BE]
    rfl
  rw [hdrop]

/-- C5 (confirmed): the group-cache entry framing round-trips. For every
    payload b and ttl whose absolute expiration now+ttl is not yet past at
    read time (and fits in an int64), Set then Get returns exactly b with
    the encoded expiration; Get on a buffer shorter than 8 bytes, or on
    one whose big-endian Unix-seconds header is before the current time,
    is ErrNotFound. -/
theorem c5_entry_framing :
    (∀ now ttl : Int, ∀ b : Bytes, ∀ now2 : Int,
      -(2 ^ 63) ≤ now + ttl → now + ttl < 2 ^ 63 → now2 ≤ now + ttl →
      entryGet now2 (entrySet now ttl b).1 = .ok (b, now + ttl)) ∧
    (∀ now : Int, ∀ e : Bytes, e.length < 8 → entryGet now e = .error .notFound) ∧
    (∀ now ttl : Int, ∀ b : Bytes, ∀ now2 : Int,
      -(2 ^ 63) ≤ now + ttl → now + ttl < 2 ^ 63 → now + ttl < now2 →
      entryGet now2 (entrySet now ttl b).1 = .error .notFound) := by
  refine ⟨?_, ?_, ?_⟩
  · intro now ttl b now2 h1 h2 h3
    rw [entryGet_entrySet now ttl b now2 h1 h2, if_neg (not_lt.mpr h3)]
  · intro now e h
    simp [entryGet, h]
  · intro now ttl b now2 h1 h2 h3
    rw [entryGet_entrySet now ttl b now2 h1 h2, if_pos h3]

/-- C5 (witness): the three parts at concrete inputs: an entry written at
    time 0 with ttl 150 and payload 7,8 read back whole at time 100,
    ErrNotFound on a 3-byte buffer, and ErrNotFound at time 200 when the
    header 150 is past. -/
theorem c5_witness :
    entryGet 100 (entrySet 0 150 [7, 8]).1 = .ok ([7, 8], 150) ∧
    entryGet 0 [1, 2, 3] = .error .notFound ∧
    entryGet 200 (entrySet 0 150 [7, 8]).1 = .error .notFound := by
  refine ⟨?_, ?_, ?_⟩
  · exact c5_entry_framing.1 0 150 [7, 8] 100 (by decide) (by decide) (by decide)
  · exact c5_entry_framing.2.1 0 [1, 2, 3] (by decide)
  · exact c5_entry_framing.2.2 0 150 [7, 8] 200 (by decide) (by decide) (by decide)

/-- C6 (code bug, evaluation at the failing input): for any negative ttl,
    a Group Cache SetBytesValue over a single accepting tier succeeds, yet
    GetBytesValue at any read time at or after the write returns
    ErrNotFound: the inline header now+ttl is already in the past the
    moment the entry is written, so a negative ttl never behaves as
    "never expires" at the group level, contradicting the documented TTL
    semantics (and the never-expire handling the write path itself
    attempts in setBytesCaches). -/
theorem c6_negative_ttl_not_never_expires :
    ∀ now now2 ttl : Int, ∀ b : Bytes, ∀ key : String, ∀ tierTTL : Int,
      ∀ st : List (String × Bytes × Int),
      ttl < 0 → now ≤ now2 → -(2 ^ 63) ≤ now + ttl → now + ttl < 2 ^ 63 →
      (GroupSetBytesValue now [⟨tierTTL, st, none⟩] key b ttl).1 = none ∧
      (GroupGetBytesValue now2
        (GroupSetBytesValue now [⟨tierTTL, st, none⟩] key b ttl).2 key).1
        = .error .notFound := by
  intro now now2 ttl b key tierTTL st hneg hle h1 h2
  have hset : GroupSetBytesValue now [⟨tierTTL, st, none⟩] key b ttl
      = (none, [⟨tierTTL, assocSet key ((entrySet now ttl b).1, ttl) st, none⟩]) := by
    simp [GroupSetBytesValue, splitLast, SubCache.SetBytesValue, setBytesCaches,
      setBytesCachesGo]
  refine ⟨by rw [hset], ?_⟩
  rw [hset]
  have hscan : scanTiers key [⟨tierTTL, assocSet key ((entrySet now ttl b).1, ttl) st, none⟩]
      = ([], some (.ok (entrySet now ttl b).1,
          ⟨tierTTL, assocSet key ((entrySet now ttl b).1, ttl) st, none⟩, [])) := by
    simp [scanTiers, SubCache.GetBytesValue, assocFind_assocSet]
  have hget : entryGet now2 (entrySet now ttl b).1 = .error .notFound := by
    rw [entryGet_entrySet now ttl b now2 h1 h2, if_pos (by omega)]
  simp [GroupGetBytesValue, hscan, hget]

/-- C6 (witness): the failing input concretely: write key k with payload 9
    and ttl -3600 at time 1000 into a one-tier group whose tier accepts
    everything and never expires at the backend; the write reports no
    error and an immediate read at the same time 1000 already returns
    ErrNotFound, where the claim promises the payload forever. -/
theorem c6_witness :
    (GroupSetBytesValue 1000 [⟨-1, [], none⟩] "k" [9] (-3600)).1 = none ∧
    (GroupGetBytesValue 1000
      (GroupSetBytesValue 1000 [⟨-1, [], none⟩] "k" [9] (-3600)).2 "k").1
      = .error .notFound := by
  exact c6_negative_ttl_not_never_expires 1000 1000 (-3600) [9] "k" (-1) []
    (by decide) (by decide) (by decide) (by decide)

/-- C7 (amended): Expire on an absent key. For the Cache Engine, a
    non-empty absent key is a silent no-op: no error and no state change
    (as TestNotFound requires). For the Group Cache, however, Expire first
    reads through GetBytesValue and propagates its error, so a key absent
    from every tier makes Expire return ErrNotFound instead of succeeding. -/
theorem c7_expire_absent :
    (∀ (s : CacheEngine) (key : String) (ttl : Int),
      key ≠ "" → assocFind key s.store = none →
      engineExpire s key ttl = (none, s)) ∧
    (∀ (now : Int) (caches : List SubCache) (key : String) (ttl : Int),
      (∀ c ∈ caches, assocFind key c.store = none) →
      GroupExpire now caches key ttl = (some .notFound, caches)) := by
  constructor
  · intro s key ttl hne habs
    simp [engineExpire, hne, habs]
  · intro now caches key ttl hm
    simp [GroupExpire, GroupGetBytesValue, scanTiers_all_miss key caches hm]

/-- C7 (counterexample): a Group Cache of one empty tier: Expire of the
    absent key k returns ErrNotFound, an error, where the claim promises
    that absence is a silent no-op for every cache. -/
theorem c7_counterexample :
    GroupExpire 0 [⟨10, [], none⟩] "k" 5 = (some .notFound, [⟨10, [], none⟩]) ∧
    (some CacheErr.notFound : Option CacheErr) ≠ none := by
  constructor
  · rfl
  · decide

/-- C7 (witness): the amended theorem at concrete inputs: the engine
    silently ignores Expire of the absent key a, the group reports
    ErrNotFound for the key k absent from its tier. -/
theorem c7_witness :
    engineExpire ⟨3600, [], []⟩ "a" 7 = (none, ⟨3600, [], []⟩) ∧
    GroupExpire 0 [⟨10, [("x", ([1], 5))], none⟩] "k" 2
      = (some .notFound, [⟨10, [("x", ([1], 5))], none⟩]) := by
  constructor
  · exact c7_expire_absent.1 ⟨3600, [], []⟩ "a" 7 (by decide) rfl
  · exact c7_expire_absent.2 0 [⟨10, [("x", ([1], 5))], none⟩] "k" 2
      (by intro c hc; simp at hc; subst hc; rfl)

/-- C8 (amended): final-key derivation is the fixed deterministic
    concatenation of the code: the engine FinalKey prepends its prefix P,
    giving P ++ key; a Node with prefix NS over that engine first forms
    NS ++ KeyPrefix ++ key (Node.GetCacheKey) and hands it to the engine,
    so Node.FinalKey is P ++ NS ++ KeyPrefix ++ key: the engine prefix is
    outermost and the KeyPrefix separator follows the Node prefix, not
    NS ++ P ++ key as claimed. -/
theorem c8_final_key_derivation :
    (∀ P key : String, cacheFinalKey P key = P ++ key) ∧
    (∀ P ns key : String, NodeFinalKey P ns key = P ++ (ns ++ (KeyPrefix ++ key))) ∧
    (∀ ns key : String, NodeGetCacheKey ns key = ns ++ KeyPrefix ++ key) := by
  refine ⟨fun P key => rfl, fun P ns key => ?_, fun ns key => rfl⟩
  simp [NodeFinalKey, cacheFinalKey, NodeGetCacheKey, String.append_assoc]

/-- C8 (counterexample): with engine prefix p, Node prefix n and caller
    key key, the code produces p ++ n ++ KeyPrefix ++ key, which differs
    from the claimed NS + P + key = n ++ p ++ key (the two differ in their
    very first character, whatever the KeyPrefix constant is). -/
theorem c8_counterexample : NodeFinalKey "p" "n" "key" ≠ "n" ++ "p" ++ "key" := by
  decide

/-- C9 (confirmed): every keyed operation of the Cache Engine invoked with
    the empty key returns ErrKeyUnavailable and leaves the engine state
    untouched (no backend mutation), for Set, Update, Get, SetBytesValue,
    UpdateBytesValue, GetBytesValue, Del, SetCounter, GetCounter,
    IncrCounter, DelCounter, Expire, ExpireCounter and Load. -/
theorem c9_empty_key_rejected :
    ∀ (s : CacheEngine) (b : Bytes) (ttl : Int) (vI : Int) (α : Type) (v : α)
      (m : α → Bytes) (u : Bytes → Except CacheErr α)
      (loader : String → Except CacheErr α),
      engineSet m s "" v ttl = (some .keyUnavailable, s) ∧
      engineUpdate m s "" v ttl = (some .keyUnavailable, s) ∧
      engineGet u s "" = .error .keyUnavailable ∧
      engineSetBytesValue s "" b ttl = (some .keyUnavailable, s) ∧
      engineUpdateBytesValue s "" b ttl = (some .keyUnavailable, s) ∧
      engineGetBytesValue s "" = .error .keyUnavailable ∧
      engineDel s "" = (some .keyUnavailable, s) ∧
      engineSetCounter s "" vI ttl = (some .keyUnavailable, s) ∧
      engineGetCounter s "" = .error .keyUnavailable ∧
      engineIncrCounter s "" vI ttl = (.error .keyUnavailable, s) ∧
      engineDelCounter s "" = (some .keyUnavailable, s) ∧
      engineExpire s "" ttl = (some .keyUnavailable, s) ∧
      engineExpireCounter s "" ttl = (some .keyUnavailable, s) ∧
      engineLoad m u s "" ttl loader = (.error .keyUnavailable, s) := by
  intro s b ttl vI α v m u loader
  exact ⟨rfl, rfl, rfl, rfl, rfl, rfl, rfl, rfl, rfl, rfl, rfl, rfl, rfl, rfl⟩

theorem assocFind_none_not_mem (key : String) (l : List (String × α))
    (h : assocFind key l = none) : key ∉ l.map Prod.fst := by
  induction l with
  | nil => simp
  | cons hd tl ih =>
    obtain ⟨k, v⟩ := hd
    simp only [assocFind] at h
    by_cases hk : k = key
    · simp [hk] at h
    · simp only [List.map_cons, List.mem_cons]
      rintro (hc | hc)
      · exact hk hc.symm
      · exact (ih (by simpa [hk] using h)) hc

/-- C10 (confirmed): the marshaler registry never silently replaces a
    registration: registering a nil factory panics, registering an already
    registered name panics (so each successful registration keeps the
    registered names free of duplicates, each name mapping to exactly one
    factory), while looking up an unregistered name through NewMarshaler
    returns an error value rather than panicking. -/
theorem c10_marshaler_registry :
    (∀ (F : Type) (reg : List (String × F)) (name : String),
      RegisterMarshaler reg name none = none) ∧
    (∀ (F : Type) (reg : List (String × F)) (name : String) (f : Option F) (g : F),
      assocFind name reg = some g → RegisterMarshaler reg name f = none) ∧
    (∀ (F : Type) (reg : List (String × F)) (name : String) (f : Option F)
       (reg2 : List (String × F)),
      RegisterMarshaler reg name f = some reg2 →
      (reg.map Prod.fst).Nodup → (reg2.map Prod.fst).Nodup) ∧
    (∀ (M : Type) (reg : List (String × (Unit → Except String M))) (name : String),
      assocFind name reg = none →
      NewMarshaler reg name
        = .error ("cache: unknown marshaler " ++ name ++ " (forgotten import?)")) := by
  refine ⟨?_, ?_, ?_, ?_⟩
  · intro F reg name
    rfl
  · intro F reg name f g h
    cases f with
    | none => rfl
    | some fac => simp [RegisterMarshaler, h]
  · intro F reg name f reg2 hr hnodup
    cases f with
    | none => simp [RegisterMarshaler] at hr
    | some fac =>
      simp only [RegisterMarshaler] at hr
      cases hf : assocFind name reg with
      | some g => rw [hf] at hr; exact absurd hr (by simp)
      | none =>
        rw [hf] at hr
        have : (name, fac) :: reg = reg2 := by injection hr
        subst this
        simp only [List.map_cons, List.nodup_cons]
        exact ⟨assocFind_none_not_mem name reg hf, hnodup⟩
  · intro M reg name h
    simp [NewMarshaler, h]

/-- C10 (witness): the registry facts at concrete inputs: re-registering
    the taken name a panics, a successful registration of the fresh name b
    keeps the names duplicate-free, and looking up the unregistered name x
    yields the error message, not a panic. -/
theorem c10_witness :
    RegisterMarshaler ([("a", 1)] : List (String × Nat)) "a" (some 2) = none ∧
    (((([("b", 2), ("a", 1)] : List (String × Nat))).map Prod.fst).Nodup) ∧
    NewMarshaler ([] : List (String × (Unit → Except String Nat))) "x"
      = .error ("cache: unknown marshaler " ++ "x" ++ " (forgotten import?)") := by
  refine ⟨?_, ?_, ?_⟩
  · exact c10_marshaler_registry.2.1 Nat [("a", 1)] "a" (some 2) 1 rfl
  · exact c10_marshaler_registry.2.2.1 Nat [("a", 1)] "b" (some 2)
      [("b", 2), ("a", 1)] rfl (by decide)
  · exact c10_marshaler_registry.2.2.2 Nat [] "x" rfl

/-- C1 (amended): stampede protection of the Load protocol when the loader
    succeeds. For any number n of concurrent Load callers on one key
    absent from the cache, with a loader that deterministically returns
    the value v, every state reachable by interleaving protocol steps has
    the loader invoked at most once, and every caller that has finished
    observes exactly v. (When the loader fails, its error is propagated
    uncached, so a waiting caller re-invokes the loader after the failure:
    at-most-once does not hold for failing loaders, see the
    counterexample.) -/
theorem c1_load_at_most_once_on_success :
    ∀ (n : Nat) (V E : Type) (v : V) (s : LoadSys n V E),
      LoadReachable (Except.ok v : Except E V) s →
      s.loadCount ≤ 1 ∧ (∀ i r, s.pc i = .done r → r = .ok v) := by
  intro n V E v s hreach
  have hinv : (∀ i, (s.pc i = .locked ∨ s.pc i = .loading) → s.lock = some i) ∧
      (s.cache = none ∨ s.cache = some v) ∧
      (∀ i r, s.pc i = .done r → r = .ok v) ∧
      s.loadCount ≤ 1 ∧
      (s.loadCount = 1 → s.cache = some v ∨ ∃ i, s.lock = some i ∧ s.pc i = .loading) := by
    induction hreach with
    | refl =>
      refine ⟨?_, Or.inl rfl, ?_, by simp [loadInit], ?_⟩
      · intro i hi
        rcases hi with h | h <;> exact LoadPc.noConfusion h
      · intro i r h
        exact LoadPc.noConfusion h
      · intro h
        simp [loadInit] at h
    | tail hsteps hstep ih =>
      obtain ⟨hA, hB, hC, hD, hE⟩ := ih
      cases hstep with
      | get1Hit i v0 hpc hcache =>
        have hvv : v0 = v := by
          rcases hB with h | h
          · rw [h] at hcache
            exact Option.noConfusion hcache
          · rw [h] at hcache
            injection hcache with h2
            exact h2.symm
        dsimp only
        refine ⟨?_, hB, ?_, hD, ?_⟩
        · intro j hj
          rcases eq_or_ne j i with rfl | hne
          · rw [Function.update_same] at hj
            rcases hj with h | h <;> exact LoadPc.noConfusion h
          · rw [Function.update_noteq hne] at hj
            exact hA j hj
        · intro j r hj
          rcases eq_or_ne j i with rfl | hne
          · rw [Function.update_same] at hj
            have h2 : Except.ok v0 = r := by injection hj
            rw [← h2, hvv]
          · rw [Function.update_noteq hne] at hj
            exact hC j r hj
        · intro hc
          rcases hE hc with h | ⟨i1, h1, h2⟩
          · exact Or.inl h
          · refine Or.inr ⟨i1, h1, ?_⟩
            have hne : i1 ≠ i := by
              intro hh
              rw [hh, hpc] at h2
              exact LoadPc.noConfusion h2
            rw [Function.update_noteq hne]
            exact h2
      | get1Miss i hpc hcache =>
        dsimp only
        refine ⟨?_, hB, ?_, hD, ?_⟩
        · intro j hj
          rcases eq_or_ne j i with rfl | hne
          · rw [Function.update_same] at hj
            rcases hj with h | h <;> exact LoadPc.noConfusion h
          · rw [Function.update_noteq hne] at hj
            exact hA j hj
        · intro j r hj
          rcases eq_or_ne j i with rfl | hne
          · rw [Function.update_same] at hj
            exact LoadPc.noConfusion hj
          · rw [Function.update_noteq hne] at hj
            exact hC j r hj
        · intro hc
          rcases hE hc with h | ⟨i1, h1, h2⟩
          · exact Or.inl h
          · refine Or.inr ⟨i1, h1, ?_⟩
            have hne : i1 ≠ i := by
              intro hh
              rw [hh, hpc] at h2
              exact LoadPc.noConfusion h2
            rw [Function.update_noteq hne]
            exact h2
      | acquire i hpc hlock =>
        dsimp only
        refine ⟨?_, hB, ?_, hD, ?_⟩
        · intro j hj
          rcases eq_or_ne j i with rfl | hne
          · rfl
          · rw [Function.update_noteq hne] at hj
            have h2 := hA j hj
            rw [hlock] at h2
            exact Option.noConfusion h2
        · intro j r hj
          rcases eq_or_ne j i with rfl | hne
          · rw [Function.update_same] at hj
            exact LoadPc.noConfusion hj
          · rw [Function.update_noteq hne] at hj
            exact hC j r hj
        · intro hc
          rcases hE hc with h | ⟨i1, h1, h2⟩
          · exact Or.inl h
          · rw [hlock] at h1
            exact Option.noConfusion h1
      | get2Hit i v0 hpc hlock hcache =>
        have hvv : v0 = v := by
          rcases hB with h | h
          · rw [h] at hcache
            exact Option.noConfusion hcache
          · rw [h] at hcache
            injection hcache with h2
            exact h2.symm
        dsimp only
        refine ⟨?_, hB, ?_, hD, ?_⟩
        · intro j hj
          rcases eq_or_ne j i with rfl | hne
          · rw [Function.update_same] at hj
            rcases hj with h | h <;> exact LoadPc.noConfusion h
          · rw [Function.update_noteq hne] at hj
            have h2 := hA j hj
            rw [hlock] at h2
            injection h2 with h3
            exact absurd h3.symm hne
        · intro j r hj
          rcases eq_or_ne j i with rfl | hne
          · rw [Function.update_same] at hj
            have h2 : Except.ok v0 = r := by injection hj
            rw [← h2, hvv]
          · rw [Function.update_noteq hne] at hj
            exact hC j r hj
        · intro hc
          rcases hE hc with h | ⟨i1, h1, h2⟩
          · exact Or.inl h
          · rw [hlock] at h1
            injection h1 with h3
            rw [← h3, hpc] at h2
            exact LoadPc.noConfusion h2
      | get2Miss i hpc hlock hcache =>
        rename_i s2
        have hzero : s2.loadCount = 0 := by
          rcases Nat.eq_zero_or_pos s2.loadCount with h | h
          · exact h
          · exfalso
            have h1 : s2.loadCount = 1 := le_antisymm hD h
            rcases hE h1 with hcv | ⟨i1, hl1, hp1⟩
            · rw [hcache] at hcv
              exact Option.noConfusion hcv
            · rw [hlock] at hl1
              injection hl1 with h3
              rw [← h3, hpc] at hp1
              exact LoadPc.noConfusion hp1
        dsimp only
        refine ⟨?_, hB, ?_, by simp [hzero], ?_⟩
        · intro j hj
          rcases eq_or_ne j i with rfl | hne
          · exact hlock
          · rw [Function.update_noteq hne] at hj
            exact hA j hj
        · intro j r hj
          rcases eq_or_ne j i with rfl | hne
          · rw [Function.update_same] at hj
            exact LoadPc.noConfusion hj
          · rw [Function.update_noteq hne] at hj
            exact hC j r hj
        · intro _
          exact Or.inr ⟨i, hlock, Function.update_same i _ _⟩
      | loadOk i v0 hpc hlock hl =>
        have hvv : v0 = v := by
          injection hl with h2
          exact h2.symm
        dsimp only
        refine ⟨?_, Or.inr (by rw [hvv]), ?_, hD, ?_⟩
        · intro j hj
          rcases eq_or_ne j i with rfl | hne
          · rw [Function.update_same] at hj
            rcases hj with h | h <;> exact LoadPc.noConfusion h
          · rw [Function.update_noteq hne] at hj
            have h2 := hA j hj
            rw [hlock] at h2
            injection h2 with h3
            exact absurd h3.symm hne
        · intro j r hj
          rcases eq_or_ne j i with rfl | hne
          · rw [Function.update_same] at hj
            have h2 : Except.ok v0 = r := by injection hj
            rw [← h2, hvv]
          · rw [Function.update_noteq hne] at hj
            exact hC j r hj
        · intro _
          exact Or.inl (by rw [hvv])
      | loadErr i e hpc hlock hl =>
        exact Except.noConfusion hl
  exact ⟨hinv.2.2.2.1, hinv.2.2.1⟩

/-- C1 (counterexample): with a failing loader, two concurrent Load
    callers reach a state in which the loader has executed twice: caller 0
    misses, locks, invokes the loader, fails and releases without caching;
    caller 1, already past its first Get, then locks, still finds nothing
    and invokes the loader again. This refutes the claim that the loader
    executes at most once with all callers sharing the single failed
    execution. -/
theorem c1_counterexample :
    LoadReachable (Except.error () : Except Unit Unit)
      (⟨none, none, fun _ => LoadPc.done (.error ()), 2⟩ : LoadSys 2 Unit Unit) ∧
    (⟨none, none, fun _ => LoadPc.done (.error ()), 2⟩ : LoadSys 2 Unit Unit).loadCount = 2 := by
  constructor
  · have r0 : LoadReachable (Except.error () : Except Unit Unit) (loadInit 2 Unit Unit) :=
      Relation.ReflTransGen.refl
    have r1 := r0.tail (LoadStep.get1Miss (loadInit 2 Unit Unit) 0 rfl rfl)
    have r2 := r1.tail (LoadStep.get1Miss _ 1 (by simp [loadInit, Function.update]) rfl)
    have r3 := r2.tail (LoadStep.acquire _ 0 (by simp [loadInit, Function.update]) rfl)
    have r4 := r3.tail (LoadStep.get2Miss _ 0 (by simp [loadInit, Function.update]) rfl rfl)
    have r5 := r4.tail (LoadStep.loadErr _ 0 () (by simp [loadInit, Function.update]) rfl rfl)
    have r6 := r5.tail (LoadStep.acquire _ 1 (by simp [loadInit, Function.update]) rfl)
    have r7 := r6.tail (LoadStep.get2Miss _ 1 (by simp [loadInit, Function.update]) rfl rfl)
    have r8 := r7.tail (LoadStep.loadErr _ 1 () (by simp [loadInit, Function.update]) rfl rfl)
    convert r8 using 1
    simp only [LoadSys.mk.injEq, true_and, and_true]
    refine ⟨rfl, ?_, rfl⟩
    funext i
    fin_cases i <;> simp [Function.update, loadInit]
  · rfl


/-- C1 (witness): the amended theorem applied to the state reached by one
    caller completing a full successful protocol run (miss, lock, re-miss,
    load the value, store, release): the loader ran exactly once there. -/
theorem c1_witness :
    (⟨some (), none, fun _ => LoadPc.done (.ok ()), 1⟩ : LoadSys 1 Unit Unit).loadCount ≤ 1 := by
  have hr : LoadReachable (Except.ok () : Except Unit Unit)
      (⟨some (), none, fun _ => LoadPc.done (.ok ()), 1⟩ : LoadSys 1 Unit Unit) := by
    have r0 : LoadReachable (Except.ok () : Except Unit Unit) (loadInit 1 Unit Unit) :=
      Relation.ReflTransGen.refl
    have r1 := r0.tail (LoadStep.get1Miss (loadInit 1 Unit Unit) 0 rfl rfl)
    have r2 := r1.tail (LoadStep.acquire _ 0 (by simp [loadInit, Function.update]) rfl)
    have r3 := r2.tail (LoadStep.get2Miss _ 0 (by simp [loadInit, Function.update]) rfl rfl)
    have r4 := r3.tail (LoadStep.loadOk _ 0 () (by simp [loadInit, Function.update]) rfl rfl)
    convert r4 using 1
    simp only [LoadSys.mk.injEq, true_and, and_true]
    refine ⟨?_, rfl⟩
    funext i
    fin_cases i <;> simp [Function.update, loadInit]
  exact (c1_load_at_most_once_on_success 1 Unit Unit () _ hr).1
